import Mathlib

/-!
Verification of the surebet core of `sxbet-bot` (files `sxbet.py`,
`analysis.py`, `bot.py`).

Modelling conventions for the shallow embedding:

* Python floats are modelled as exact rationals `ℚ`; every arithmetic
  expression of the source is transcribed literally over `ℚ`.
* A JSON field value that the code may receive as a number or as a string is
  modelled by `PyVal`; `pyFloat` models Python's `float(...)` conversion,
  which fails (raises) on a non-numeric string, and `truthy` models Python
  truthiness of such a value (`0`, `""` are falsy).
* A Python `dict` used as a record is a structure whose fields are `Option`s
  (`none` = key absent); a `dict` used as a map is an association list
  `List (key × value)` in insertion order.  Grouping rows into a dict by
  `setdefault`/append (as `group_trades` and `detect_closed_surebets` do) is
  modelled by `groupByKey`: keys in first-occurrence order, each key paired
  with the sublist of rows having that key, which is exactly the CPython
  dict semantics of that loop.
* Code that can raise (`float(...)` on bad input, float division by zero) is
  modelled in the `Except Unit` monad; `Except.error ()` marks the raise
  point.  Code that cannot raise stays a plain function.
* Python's stable `list.sort(key=..., reverse=True)` is modelled by
  `sortDesc`, the stable insertion sort that orders strictly larger keys
  first (a stable sort by a fixed key order is unique, so this is the same
  function).
-/

namespace SxBet

/-- A JSON-ish scalar as Python sees it: a number or a string. -/
inductive PyVal where
  | num (q : ℚ)
  | str (s : String)
deriving DecidableEq, Repr

/-- Python truthiness of a `PyVal`: `0` and `""` are falsy. -/
def truthy : PyVal → Bool
  | PyVal.num q => q != 0
  | PyVal.str s => s != ""

/-- All characters are decimal digits. -/
def allDigits (cs : List Char) : Bool := cs.all (fun c => c.isDigit)

/-- The natural number denoted by a digit string. -/
def digitsVal (cs : List Char) : ℕ := cs.foldl (fun n c => 10 * n + (c.toNat - 48)) 0

/-- Split a character list at the first dot. -/
def splitDot (cs : List Char) : List Char × List Char :=
  (cs.takeWhile (fun c => c != '.'), (cs.dropWhile (fun c => c != '.')).drop 1)

/-- Parse an unsigned decimal numeral `intpart[.fracpart]` (at least one digit
overall, at most one dot). -/
def parseUnsigned (cs : List Char) : Option ℚ :=
  let ip := (splitDot cs).1
  let fp := (splitDot cs).2
  if (cs.count '.') ≤ 1 ∧ allDigits ip ∧ allDigits fp ∧ (ip ++ fp) ≠ [] then
    some ((digitsVal ip : ℚ) + (digitsVal fp : ℚ) / (10 : ℚ) ^ fp.length)
  else
    none

/-- Parse a signed decimal numeral, the shapes Python's `float` accepts that
occur in this API's data.  Any other string makes `float` raise. -/
def parseDec (s : String) : Option ℚ :=
  match s.toList with
  | '-' :: rest => (parseUnsigned rest).map (fun q => -q)
  | '+' :: rest => parseUnsigned rest
  | cs => parseUnsigned cs

/-- Python's `float(v)`: a number converts, a string is parsed and a
non-numeric string raises. -/
def pyFloat : PyVal → Except Unit ℚ
  | PyVal.num q => Except.ok q
  | PyVal.str s =>
    match parseDec s with
    | some q => Except.ok q
    | none => Except.error ()

/-- `ODDS_SCALE = 1e20` (`sxbet.py`). -/
def ODDS_SCALE : ℚ := 10 ^ 20

/-- `USDC_SCALE = 1e6` (`sxbet.py`). -/
def USDC_SCALE : ℚ := 10 ^ 6

/-- `MARKET_NAMES` (`sxbet.py`). -/
def MARKET_NAMES : List (ℤ × String) :=
  [(1, "1X2"), (2, "Over/Under"), (3, "Asian HC"),
   (52, "Money Line"), (88, "To Qualify"),
   (226, "ML+OT"), (201, "Asian HC Games"),
   (342, "Asian HC+OT"), (835, "Asian O/U"),
   (28, "O/U+OT"), (29, "O/U Rounds"),
   (166, "O/U Games"), (1536, "O/U Maps"),
   (274, "Outright"), (63, "12 HT"),
   (77, "O/U HT"), (866, "Set Spread"), (165, "Set Total")]

/-- A trade (fill) row as `group_trades` and `_get_stake` read it. -/
structure Trade where
  marketHash : String
  bettingOutcomeOne : Bool
  settled : Bool
  outcome : Option ℤ
  settleDate : Option ℤ
  betTime : Option ℤ
  odds : Option PyVal
  normalizedStake : Option PyVal
  betTimeValue : Option PyVal
  stake : Option PyVal
deriving DecidableEq, Repr

/-- An order-book row as `_best_taker_odds` / `_total_liquidity` read it. -/
structure Order where
  isMakerBettingOutcomeOne : Bool
  percentageOdds : Option PyVal
  fillAmount : Option PyVal
deriving DecidableEq, Repr

/-- A market row: the fields the analysed code reads. -/
structure Market where
  teamOneName : Option String
  teamTwoName : Option String
  outcomeOneName : Option String
  outcomeTwoName : Option String
  sportLabel : Option String
  leagueLabel : Option String
  type : Option ℤ
  line : Option ℚ
  gameTime : Option ℚ
deriving DecidableEq, Repr

/-- The empty market dict `{}` used when a hash is unknown. -/
def defaultMarket : Market :=
  { teamOneName := none, teamTwoName := none, outcomeOneName := none,
    outcomeTwoName := none, sportLabel := none, leagueLabel := none,
    type := none, line := none, gameTime := none }

/-- One output row of `group_trades`. -/
structure Group where
  stable_key : String
  market_hash : String
  betting_outcome_one : Bool
  settled : Bool
  outcome : Option ℤ
  result : String
  settle_date : Option ℤ
  bet_time : ℤ
  num_trades : ℕ
  total_stake : ℚ
  avg_odds : ℚ
  potential_win : ℚ
deriving DecidableEq, Repr

/-- One output row of `find_surebets`. -/
structure Surebet where
  stable_key : String
  market_hash : String
  event : String
  sport : String
  league : String
  market_type : String
  side : String
  total_stake : ℚ
  avg_odds : ℚ
  potential_win : ℚ
  live_same_odds : ℚ
  live_opp_odds : ℚ
  hedge_stake : ℚ
  guaranteed_profit : ℚ
  roi : ℚ
deriving DecidableEq, Repr

/-- One value of the map `detect_closed_surebets` returns. -/
structure ClosedSurebet where
  market_hash : String
  leg1 : Group
  leg2 : Group
  total_stake : ℚ
  profit1 : ℚ
  profit2 : ℚ
  guaranteed : ℚ
  roi : ℚ
deriving DecidableEq, Repr

/-- `_get_stake` (`sxbet.py` 482-489): first truthy of `normalizedStake`,
`betTimeValue`, `stake / USDC_SCALE`, else `0.0`.  `float(...)` of a
non-numeric string raises, which the spec says must not happen. -/
def getStake (t : Trade) : Except Unit ℚ :=
  match t.normalizedStake with
  | some v =>
    if truthy v then pyFloat v else
    match t.betTimeValue with
    | some w =>
      if truthy w then pyFloat w else
      match t.stake with
      | some u => if truthy u then (pyFloat u).map (fun q => q / USDC_SCALE) else Except.ok 0
      | none => Except.ok 0
    | none =>
      match t.stake with
      | some u => if truthy u then (pyFloat u).map (fun q => q / USDC_SCALE) else Except.ok 0
      | none => Except.ok 0
  | none =>
    match t.betTimeValue with
    | some w =>
      if truthy w then pyFloat w else
      match t.stake with
      | some u => if truthy u then (pyFloat u).map (fun q => q / USDC_SCALE) else Except.ok 0
      | none => Except.ok 0
    | none =>
      match t.stake with
      | some u => if truthy u then (pyFloat u).map (fun q => q / USDC_SCALE) else Except.ok 0
      | none => Except.ok 0

/-- The value `_get_stake` returns when it does not raise. -/
def getStakeQ (t : Trade) : ℚ :=
  match getStake t with
  | Except.ok q => q
  | Except.error _ => 0

/-- The numeric core of `_get_odds_decimal` (`sxbet.py` 492-497): divide the
raw fixed-point value by `ODDS_SCALE`; if the implied probability is strictly
between 0 and 1 return its reciprocal, else 0. -/
def oddsDecimal (raw : ℚ) : ℚ :=
  let implied := raw / ODDS_SCALE
  if 0 < implied ∧ implied < 1 then 1 / implied else 0

/-- `_get_odds_decimal` on a field value: the `try/except` returns 0 for a
value `float` cannot convert. -/
def getOddsDecimalVal (v : PyVal) : ℚ :=
  match pyFloat v with
  | Except.ok x => oddsDecimal x
  | Except.error _ => 0

/-- The decimal odds `group_trades` uses for a trade:
`_get_odds_decimal(t.get("odds", "0"))`. -/
def tradeOdds (t : Trade) : ℚ := getOddsDecimalVal (t.odds.getD (PyVal.str "0"))

/-- `_best_taker_odds` (defined identically in `sxbet.py` 500-518 and
`analysis.py` 140-155): best `1 / (1 - makerImplied)` over orders whose maker
bets the opposite side; rows that fail to parse are skipped by the
`try/except`. -/
def bestTakerOdds (orders : List Order) (want_outcome_one : Bool) : ℚ :=
  orders.foldl
    (fun best o =>
      if o.isMakerBettingOutcomeOne = want_outcome_one then best
      else
        match o.percentageOdds with
        | none => best
        | some v =>
          match pyFloat v with
          | Except.error _ => best
          | Except.ok x =>
            let maker_implied := x / ODDS_SCALE
            if 0 < maker_implied ∧ maker_implied < 1 then
              let taker := 1 / (1 - maker_implied)
              if best < taker then taker else best
            else best)
    0

/-- `_total_liquidity` (`analysis.py` 158-170). -/
def totalLiquidity (orders : List Order) (want_outcome_one : Bool) : ℚ :=
  orders.foldl
    (fun total o =>
      if o.isMakerBettingOutcomeOne = want_outcome_one then total
      else
        match pyFloat (o.fillAmount.getD (PyVal.num 0)) with
        | Except.error _ => total
        | Except.ok x => total + x / (10 : ℚ) ^ 6)
    0

/-- `_market_type` (`sxbet.py` 521-523).  Numeric rendering is abstracted by
`toString`; no analysed property depends on this display string. -/
def marketType (type_id : Option ℤ) (line : Option ℚ) : String :=
  let name :=
    match type_id with
    | none => "Tipo None"
    | some t =>
      match MARKET_NAMES.lookup t with
      | some n => n
      | none => "Tipo " ++ toString t
  match line with
  | none => name
  | some l => name ++ " (" ++ toString l ++ ")"

/-! ### Generic machinery: stable descending sort and dict grouping -/

/-- Insert `x` into a descending-sorted list, after every element whose key is
at least as large (the stable position Python's sort gives it). -/
def insertDesc (key : α → ℚ) (x : α) : List α → List α
  | [] => [x]
  | y :: ys => if key y < key x then x :: y :: ys else y :: insertDesc key x ys

/-- Stable sort by `key`, largest first: Python's
`list.sort(key=..., reverse=True)`. -/
def sortDesc (key : α → ℚ) (l : List α) : List α :=
  l.foldl (fun acc x => insertDesc key x acc) []

/-- Key list in first-occurrence order. -/
def firstKeys [DecidableEq κ] : List κ → List κ
  | [] => []
  | k :: rest => k :: (firstKeys rest).filter (fun k' => k' ≠ k)

/-- Grouping a list into a Python dict by `setdefault`/append: keys in
first-occurrence order, each paired with the rows having that key, in input
order. -/
def groupByKey [DecidableEq κ] (key : α → κ) (l : List α) : List (κ × List α) :=
  (firstKeys (l.map key)).map (fun k => (k, l.filter (fun a => key a = k)))

/-- All-ok traversal of `Except`: the value list when every element maps to
`ok`, the first error otherwise. -/
def exceptMap (f : α → Except Unit β) : List α → Except Unit (List β)
  | [] => Except.ok []
  | x :: xs =>
    match f x with
    | Except.error e => Except.error e
    | Except.ok y =>
      match exceptMap f xs with
      | Except.error e => Except.error e
      | Except.ok ys => Except.ok (y :: ys)

/-! ### `group_trades` (`sxbet.py` 200-268) -/

/-- The dict key of `group_trades`:
`(t["marketHash"], bool(t.get("bettingOutcomeOne")), bool(t.get("settled")))`. -/
def tradeKey (t : Trade) : String × Bool × Bool :=
  (t.marketHash, t.bettingOutcomeOne, t.settled)

/-- The latest-fill state `(bet_time, outcome, settle_date)` kept by the
loop of `group_trades`. -/
def latestInit (t : Trade) : ℤ × Option ℤ × Option ℤ :=
  (t.betTime.getD 0, t.outcome, t.settleDate)

/-- One step of the latest-fill update:
`if (t.get("betTime") or 0) >= (g["bet_time"] or 0): ...` (`sxbet.py` 227-230). -/
def latestUpd (acc : ℤ × Option ℤ × Option ℤ) (t : Trade) : ℤ × Option ℤ × Option ℤ :=
  if acc.1 ≤ t.betTime.getD 0 then latestInit t else acc

/-- `st` holds the fields of the member of `l` with the highest bet
timestamp, the last such member on ties: there is a split `l = l1 ++ t :: l2`
with every earlier timestamp `≤` and every later timestamp `<` that of `t`. -/
def LatestSelection (l : List Trade) (st : ℤ × Option ℤ × Option ℤ) : Prop :=
  ∃ l1 t l2, l = l1 ++ t :: l2 ∧ st = latestInit t ∧
    (∀ u ∈ l1, u.betTime.getD 0 ≤ t.betTime.getD 0) ∧
    (∀ u ∈ l2, u.betTime.getD 0 < t.betTime.getD 0)

/-- The stake/weighted-odds accumulation of `group_trades` (`sxbet.py`
234-240): raises where `_get_stake` raises. -/
def stakeWeightFold (acc : ℚ × ℚ) : List Trade → Except Unit (ℚ × ℚ)
  | [] => Except.ok acc
  | t :: r =>
    match getStake t with
    | Except.error e => Except.error e
    | Except.ok s => stakeWeightFold (acc.1 + s, acc.2 + s * tradeOdds t) r

/-- Build one output row of `group_trades` from a dict key and its fills
(`sxbet.py` 232-266). -/
def buildGroup (k : String × Bool × Bool) (items : List Trade) : Except Unit Group :=
  match items with
  | [] => Except.error ()
  | t0 :: _ =>
    match stakeWeightFold (0, 0) items with
    | Except.error e => Except.error e
    | Except.ok sw =>
      let total_stake := sw.1
      let avg_odds := if 0 < total_stake then sw.2 / total_stake else 0
      let latest := items.foldl latestUpd (latestInit t0)
      let outcome := latest.2.1
      let won := (outcome = some 1 ∧ k.2.1 = true) ∨ (outcome = some 2 ∧ k.2.1 = false)
      Except.ok
        { stable_key := k.1 ++ "__" ++ (if k.2.1 then "1" else "0")
          market_hash := k.1
          betting_outcome_one := k.2.1
          settled := k.2.2
          outcome := outcome
          result :=
            if outcome = some 0 then "VOID"
            else if won then "GANADA"
            else if k.2.2 then "PERDIDA" else "-"
          settle_date := latest.2.2
          bet_time := latest.1
          num_trades := items.length
          total_stake := total_stake
          avg_odds := avg_odds
          potential_win := total_stake * avg_odds }

/-- `group_trades`: group fills by `(marketHash, side, settled)` and build
each output row; raises where `_get_stake` raises. -/
def groupTrades (trades : List Trade) : Except Unit (List Group) :=
  exceptMap (fun p => buildGroup p.1 p.2) (groupByKey tradeKey trades)

/-! ### `find_surebets` (`sxbet.py` 275-331) -/

/-- The order book of a group's market: `orders.get(g["market_hash"], [])`. -/
def ordersFor (orders : List (String × List Order)) (mh : String) : List Order :=
  (orders.lookup mh).getD []

/-- `live_opp = _best_taker_odds(mkt_orders, not g["betting_outcome_one"])`
(`sxbet.py` 290). -/
def liveOppOdds (orders : List (String × List Order)) (g : Group) : ℚ :=
  bestTakerOdds (ordersFor orders g.market_hash) (!g.betting_outcome_one)

/-- `hedge = potential / live_opp` (`sxbet.py` 296). -/
def hedgeStakeOf (orders : List (String × List Order)) (g : Group) : ℚ :=
  g.potential_win / liveOppOdds orders g

/-- `profit_a = potential - total_stake - hedge` (`sxbet.py` 297). -/
def profitAOf (orders : List (String × List Order)) (g : Group) : ℚ :=
  g.potential_win - g.total_stake - hedgeStakeOf orders g

/-- `profit_b = hedge * live_opp - total_stake - hedge` (`sxbet.py` 298). -/
def profitBOf (orders : List (String × List Order)) (g : Group) : ℚ :=
  hedgeStakeOf orders g * liveOppOdds orders g - g.total_stake - hedgeStakeOf orders g

/-- The guaranteed-profit formula of the arbitrage engine as a function of
potential payout, total stake and best opposing taker odds
(`sxbet.py` 296-299). -/
def surebetGuaranteed (potential total_stake live_opp : ℚ) : ℚ :=
  let hedge := potential / live_opp
  min (potential - total_stake - hedge) (hedge * live_opp - total_stake - hedge)

/-- `guaranteed = min(profit_a, profit_b)` (`sxbet.py` 299). -/
def guaranteedOf (orders : List (String × List Order)) (g : Group) : ℚ :=
  surebetGuaranteed g.potential_win g.total_stake (liveOppOdds orders g)

/-- `roi = (guaranteed / g["total_stake"]) * 100` (`sxbet.py` 300). -/
def roiOf (orders : List (String × List Order)) (g : Group) : ℚ :=
  guaranteedOf orders g / g.total_stake * 100

/-- The opportunity row `find_surebets` appends for a group
(`sxbet.py` 307-328). -/
def mkSurebet (markets : List (String × Market))
    (orders : List (String × List Order)) (g : Group) : Surebet :=
  let mkt := (markets.lookup g.market_hash).getD defaultMarket
  let t1 := mkt.teamOneName.getD "?"
  let t2 := mkt.teamTwoName.getD "?"
  { stable_key := g.stable_key
    market_hash := g.market_hash
    event := t1 ++ " vs " ++ t2
    sport := mkt.sportLabel.getD "?"
    league := mkt.leagueLabel.getD "?"
    market_type := marketType mkt.type mkt.line
    side := if g.betting_outcome_one then mkt.outcomeOneName.getD "O1"
            else mkt.outcomeTwoName.getD "O2"
    total_stake := g.total_stake
    avg_odds := g.avg_odds
    potential_win := g.potential_win
    live_same_odds := bestTakerOdds (ordersFor orders g.market_hash) g.betting_outcome_one
    live_opp_odds := liveOppOdds orders g
    hedge_stake := hedgeStakeOf orders g
    guaranteed_profit := guaranteedOf orders g
    roi := roiOf orders g }

/-- The per-group step of `find_surebets` (`sxbet.py` 282-328): `none` for a
skipped group, raises (`ZeroDivisionError`) at the `roi` division when an
unsettled group with opposing liquidity has `total_stake == 0`. -/
def surebetOf (markets : List (String × Market))
    (orders : List (String × List Order)) (min_roi : ℚ) (g : Group) :
    Except Unit (Option Surebet) :=
  if g.settled then Except.ok none
  else if liveOppOdds orders g ≤ 1.01 then Except.ok none
  else if g.total_stake = 0 then Except.error ()
  else if guaranteedOf orders g ≤ 0 then Except.ok none
  else if roiOf orders g < min_roi then Except.ok none
  else Except.ok (some (mkSurebet markets orders g))

/-- The accumulation loop of `find_surebets`, before sorting. -/
def collectSurebets (markets : List (String × Market))
    (orders : List (String × List Order)) (min_roi : ℚ) :
    List Group → Except Unit (List Surebet)
  | [] => Except.ok []
  | g :: rest =>
    match surebetOf markets orders min_roi g with
    | Except.error e => Except.error e
    | Except.ok none => collectSurebets markets orders min_roi rest
    | Except.ok (some sb) =>
      match collectSurebets markets orders min_roi rest with
      | Except.error e => Except.error e
      | Except.ok l => Except.ok (sb :: l)

/-- `find_surebets`: collect opportunities over unsettled groups and sort by
ROI descending. -/
def findSurebets (groups : List Group) (markets : List (String × Market))
    (orders : List (String × List Order)) (min_roi : ℚ) :
    Except Unit (List Surebet) :=
  match collectSurebets markets orders min_roi groups with
  | Except.error e => Except.error e
  | Except.ok l => Except.ok (sortDesc (fun sb => sb.roi) l)

/-! ### `detect_closed_surebets` (`sxbet.py` 338-377) -/

/-- The entry `detect_closed_surebets` builds for one market and its active
legs (`sxbet.py` 352-375): `none` unless `next(...)` finds a leg on each
side. -/
def closedEntry (p : String × List Group) : Option (String × ClosedSurebet) :=
  match p.2.find? (fun l => l.betting_outcome_one),
        p.2.find? (fun l => !l.betting_outcome_one) with
  | some side1, some side2 =>
    let total_stake := side1.total_stake + side2.total_stake
    let profit1 := side1.potential_win - total_stake
    let profit2 := side2.potential_win - total_stake
    let guaranteed := min profit1 profit2
    some (p.1,
      { market_hash := p.1
        leg1 := side1
        leg2 := side2
        total_stake := total_stake
        profit1 := profit1
        profit2 := profit2
        guaranteed := guaranteed
        roi := if 0 < total_stake then guaranteed / total_stake * 100 else 0 })
  | _, _ => none

/-- `detect_closed_surebets`: markets with an unsettled leg on each side.
The grouping dict `by_market` is `groupByKey` over the active groups; each
market contributes one entry when `next(...)` finds a leg on each side. -/
def detectClosedSurebets (groups : List Group) : List (String × ClosedSurebet) :=
  let active := groups.filter (fun g => !g.settled)
  (groupByKey (fun g => g.market_hash) active).filterMap closedEntry

/-! ### `get_stats` (`sxbet.py` 384-442) -/

/-- One bucket of the per-sport statistics. -/
structure SportAcc where
  won : ℕ
  lost : ℕ
  void : ℕ
  stake : ℚ
  pnl : ℚ
  roi : ℚ
deriving DecidableEq, Repr

/-- Insert-or-replace in an association list, keeping insertion order. -/
def upsertAssoc [DecidableEq κ] (k : κ) (v : β) : List (κ × β) → List (κ × β)
  | [] => [(k, v)]
  | (k', v') :: r => if k' = k then (k, v) :: r else (k', v') :: upsertAssoc k v r

/-- One iteration of the `by_sport` loop of `get_stats` (`sxbet.py` 404-420);
the sport key is the constant `"Desconocido"` there. -/
def sportStep (m : List (String × SportAcc)) (g : Group) : List (String × SportAcc) :=
  let sport := "Desconocido"
  let cur := (m.lookup sport).getD { won := 0, lost := 0, void := 0, stake := 0, pnl := 0, roi := 0 }
  let c1 : SportAcc := { cur with stake := cur.stake + g.total_stake }
  let c2 : SportAcc :=
    if g.result = "GANADA" then
      { c1 with won := c1.won + 1, pnl := c1.pnl + (g.potential_win - g.total_stake) }
    else if g.result = "PERDIDA" then
      { c1 with lost := c1.lost + 1, pnl := c1.pnl - g.total_stake }
    else
      { c1 with void := c1.void + 1 }
  let c3 : SportAcc := { c2 with roi := if 0 < c2.stake then c2.pnl / c2.stake * 100 else 0 }
  upsertAssoc sport c3 m

/-- The dict `get_stats` returns. -/
structure Stats where
  total : ℕ
  active : ℕ
  settled : ℕ
  won : ℕ
  lost : ℕ
  void : ℕ
  win_rate : ℚ
  total_stake : ℚ
  pnl : ℚ
  roi : ℚ
  by_sport : List (String × SportAcc)
  surebets_closed : ℕ
  surebets_roi_avg : ℚ
deriving DecidableEq, Repr

/-- `get_stats` (`sxbet.py` 384-442). -/
def getStats (groups : List Group) : Stats :=
  let settled := groups.filter (fun g => g.settled)
  let active := groups.filter (fun g => !g.settled)
  let won := settled.filter (fun g => g.result = "GANADA")
  let lost := settled.filter (fun g => g.result = "PERDIDA")
  let voids := settled.filter (fun g => g.result = "VOID")
  let total_stake := (settled.map (fun g => g.total_stake)).sum
  let pnl := (settled.map (fun g =>
      if g.result = "GANADA" then g.potential_win - g.total_stake
      else if g.result = "PERDIDA" then -g.total_stake
      else 0)).sum
  let decided := won.length + lost.length
  let closed := detectClosedSurebets groups
  { total := groups.length
    active := active.length
    settled := settled.length
    won := won.length
    lost := lost.length
    void := voids.length
    win_rate := if 0 < decided then (won.length : ℚ) / (decided : ℚ) * 100 else 0
    total_stake := total_stake
    pnl := pnl
    roi := if 0 < total_stake then pnl / total_stake * 100 else 0
    by_sport := settled.foldl sportStep []
    surebets_closed := closed.length
    surebets_roi_avg :=
      if closed = [] then 0
      else (closed.map (fun p => p.2.roi)).sum / (closed.length : ℚ) }

/-! ### `analysis.py`: pre-match scoring -/

/-- `_required_odds_for_roi` (`analysis.py` 173-183). -/
def requiredOddsForRoi (odds_a min_roi : ℚ) : ℚ :=
  if odds_a ≤ 1.01 then 999
  else
    let r := min_roi / 100
    let denominator := odds_a - 1 - r
    if denominator ≤ 0 then 999
    else odds_a * (1 + r) / denominator

/-- `_score_odds` (`analysis.py` 186-203). -/
def scoreOdds (odds : ℚ) : ℚ :=
  if 3 ≤ odds ∧ odds ≤ 5 then 1
  else if 2.5 ≤ odds ∧ odds < 3 then 0.9
  else if 5 < odds ∧ odds ≤ 7 then 0.85
  else if 2 ≤ odds ∧ odds < 2.5 then 0.7
  else if 7 < odds ∧ odds ≤ 10 then 0.75
  else if 1.5 ≤ odds ∧ odds < 2 then 0.4
  else if 10 < odds then 0.6
  else 0.2

/-- `_score_liquidity` (`analysis.py` 206-218). -/
def scoreLiquidity (liq : ℚ) : ℚ :=
  if 500 ≤ liq then 1
  else if 300 ≤ liq then 0.9
  else if 150 ≤ liq then 0.75
  else if 75 ≤ liq then 0.6
  else if 50 ≤ liq then 0.4
  else 0.2

/-- `_score_spread` (`analysis.py` 221-237). -/
def scoreSpread (odds_a odds_b : ℚ) : ℚ :=
  let implied_a := if 0 < odds_a then 1 / odds_a else 0
  let implied_b := if 0 < odds_b then 1 / odds_b else 0
  let overround := implied_a + implied_b - 1
  if overround < 0.02 then 1
  else if overround < 0.05 then 0.9
  else if overround < 0.08 then 0.75
  else if overround < 0.12 then 0.6
  else 0.3

/-- `_score_timing` (`analysis.py` 240-251). -/
def scoreTiming (hours_until : ℚ) : ℚ :=
  if 1 ≤ hours_until ∧ hours_until ≤ 3 then 1
  else if 0.5 ≤ hours_until ∧ hours_until < 1 then 0.85
  else if 3 < hours_until ∧ hours_until ≤ 4.5 then 0.9
  else if 4.5 < hours_until ∧ hours_until ≤ 6 then 0.7
  else 0.5

/-- `_score_sport` (`analysis.py` 254-260), with the two sport sets inlined. -/
def scoreSport (sport : String) : ℚ :=
  if sport = "Tennis" ∨ sport = "Basketball" ∨ sport = "Baseball" then 1
  else if sport = "Soccer" then 0.5
  else 0.7

/-- `MIN_LIQUIDITY = 50.0` (`analysis.py`). -/
def MIN_LIQUIDITY : ℚ := 50

/-- `_get_recommendation` (`analysis.py` 263-277). -/
def recommendationText (score : ℚ) (viable : Bool) (liquidity : ℚ) : String :=
  if 85 ≤ score ∧ viable then "🔥 EXCELENTE"
  else if 75 ≤ score ∧ viable then "✅ MUY BUENA"
  else if 65 ≤ score then "🟢 BUENA"
  else if 50 ≤ score then "🟡 ACEPTABLE"
  else if !viable then "⚠️ CUOTA CONTRARIA INSUFICIENTE"
  else if liquidity < 100 then "⚠️ POCA LIQUIDEZ"
  else "❌ EVITAR"

/-- One output row of `analyze_prematches`. -/
structure PreOpp where
  market_hash : String
  sport : String
  league : String
  team1 : String
  team2 : String
  side : String
  opp_side : String
  odds : ℚ
  opp_odds : ℚ
  required_odds : ℚ
  liquidity : ℚ
  hours_until : ℚ
  game_time : ℚ
  score : ℚ
  viable : Bool
  recommendation : String
deriving DecidableEq, Repr

/-- The per-side body of `analyze_prematches` (`analysis.py` 75-133):
`none` when a filter rejects the side. -/
def prematchSide (min_roi : ℚ) (mh : String) (mkt : Market)
    (mkt_orders : List Order) (hours_until game_time : ℚ) (side_one : Bool) :
    Option PreOpp :=
  let sport := mkt.sportLabel.getD "Unknown"
  let team1 := mkt.teamOneName.getD "Team1"
  let team2 := mkt.teamTwoName.getD "Team2"
  let league := mkt.leagueLabel.getD "Unknown"
  let side_name := if side_one then team1 else team2
  let opp_name := if side_one then team2 else team1
  let taker_odds := bestTakerOdds mkt_orders side_one
  if taker_odds < 1.5 then none
  else
    let liquidity := totalLiquidity mkt_orders side_one
    if liquidity < MIN_LIQUIDITY then none
    else
      let opp_odds := bestTakerOdds mkt_orders (!side_one)
      if opp_odds < 1.01 then none
      else
        let required_opp_odds := requiredOddsForRoi taker_odds min_roi
        let total_score :=
          (scoreOdds taker_odds * 0.35 +
           scoreLiquidity liquidity * 0.25 +
           scoreSpread taker_odds opp_odds * 0.20 +
           scoreTiming hours_until * 0.15 +
           scoreSport sport * 0.05) * 100
        let viable := decide (required_opp_odds * 0.95 ≤ opp_odds)
        some
          { market_hash := mh
            sport := sport
            league := league
            team1 := team1
            team2 := team2
            side := side_name
            opp_side := opp_name
            odds := taker_odds
            opp_odds := opp_odds
            required_odds := required_opp_odds
            liquidity := liquidity
            hours_until := hours_until
            game_time := game_time
            score := total_score
            viable := viable
            recommendation := recommendationText total_score viable liquidity }

/-- The per-market body of `analyze_prematches` (`analysis.py` 49-133). -/
def prematchMarket (now min_roi : ℚ) (orders : List (String × List Order))
    (p : String × Market) : List PreOpp :=
  let game_time := (p.2.gameTime).getD 0
  if game_time ≤ now ∨ game_time ≤ 0 then []
  else
    let hours_until := (game_time - now) / 3600
    if hours_until < 0.5 ∨ 6 < hours_until then []
    else
      [true, false].filterMap
        (prematchSide min_roi p.1 p.2 (ordersFor orders p.1) hours_until game_time)

/-- `analyze_prematches` (`analysis.py` 30-137): score each market side that
passes the pre-match filters and sort by score descending. -/
def analyzePrematches (now : ℚ) (markets : List (String × Market))
    (orders : List (String × List Order)) (min_roi : ℚ) : List PreOpp :=
  sortDesc (fun o => o.score) (markets.flatMap (prematchMarket now min_roi orders))

/-! ### `_hedge_recommendation` (`bot.py` 368-389) -/

/-- The dict `_hedge_recommendation` returns. -/
structure HedgeRec where
  stake_b : ℚ
  odds_b_min : ℚ
  total_stake : ℚ
  guaranteed : ℚ
  roi : ℚ
deriving DecidableEq, Repr

/-- `_hedge_recommendation` (`bot.py` 368-389): stake and minimum opposing
odds that hit exactly `min_roi`% guaranteed profit; `none` when no positive
hedge stake exists.  Two float divisions can raise `ZeroDivisionError`:
the `stake_b` division by `1 + r` (when `min_roi = -100`) and the `roi`
division by `total_stake` (when `stake_a + stake_b = 0`); the later
`potential_a / stake_b` cannot, since `stake_b > 0` there. -/
def hedgeRecommendation (stake_a odds_a min_roi : ℚ) : Except Unit (Option HedgeRec) :=
  let potential_a := stake_a * odds_a
  let r := min_roi / 100
  if 1 + r = 0 then Except.error ()
  else
    let stake_b := (potential_a - stake_a * (1 + r)) / (1 + r)
    if stake_b ≤ 0 then Except.ok none
    else
      let total_stake := stake_a + stake_b
      let guaranteed := potential_a - stake_a - stake_b
      if total_stake = 0 then Except.error ()
      else
        Except.ok (some
          { stake_b := stake_b
            odds_b_min := potential_a / stake_b
            total_stake := total_stake
            guaranteed := guaranteed
            roi := guaranteed / total_stake * 100 })


/-! ### Specification predicates -/

/-- What `find_surebets` guarantees about its output `l` (the claim's
contract): sorted by ROI descending; every row satisfies the hedge formulas,
has both profit paths at least the reported guaranteed profit with the
smaller equal to it, and passed the acceptance conditions; every group that
meets the acceptance conditions contributes its row; and every row comes
from such a group. -/
def SurebetsSpec (markets : List (String × Market))
    (orders : List (String × List Order)) (min_roi : ℚ)
    (groups : List Group) (l : List Surebet) : Prop :=
  l.Pairwise (fun a b => b.roi ≤ a.roi) ∧
  (∀ sb ∈ l,
    sb.hedge_stake = sb.potential_win / sb.live_opp_odds ∧
    sb.guaranteed_profit ≤ sb.potential_win - sb.total_stake - sb.hedge_stake ∧
    sb.guaranteed_profit ≤
      sb.hedge_stake * sb.live_opp_odds - sb.total_stake - sb.hedge_stake ∧
    min (sb.potential_win - sb.total_stake - sb.hedge_stake)
        (sb.hedge_stake * sb.live_opp_odds - sb.total_stake - sb.hedge_stake) =
      sb.guaranteed_profit ∧
    sb.roi = sb.guaranteed_profit / sb.total_stake * 100 ∧
    1.01 < sb.live_opp_odds ∧ 0 < sb.guaranteed_profit ∧ min_roi ≤ sb.roi) ∧
  (∀ g ∈ groups, g.settled = false → 1.01 < liveOppOdds orders g →
    0 < guaranteedOf orders g → min_roi ≤ roiOf orders g →
    mkSurebet markets orders g ∈ l) ∧
  (∀ sb ∈ l, ∃ g ∈ groups,
    g.settled = false ∧ 1.01 < liveOppOdds orders g ∧ 0 < guaranteedOf orders g ∧
    min_roi ≤ roiOf orders g ∧ sb = mkSurebet markets orders g)

/-- What `group_trades` guarantees about its output `gs` when it returns:
one row per distinct `(marketHash, side, settled)` key, covering every fill;
each row carries the stake sum, the stake-weighted average odds (0 when the
total stake is not positive), the potential payout, the fields of the
highest-timestamp fill (last on ties) and the settlement-result string. -/
def GroupTradesSpec (trades : List Trade) (gs : List Group) : Prop :=
  gs.Pairwise (fun a b =>
    (a.market_hash, a.betting_outcome_one, a.settled) ≠
    (b.market_hash, b.betting_outcome_one, b.settled)) ∧
  (∀ t ∈ trades, ∃ g ∈ gs,
    tradeKey t = (g.market_hash, g.betting_outcome_one, g.settled)) ∧
  (∀ g ∈ gs,
    let items := trades.filter (fun t =>
      tradeKey t = (g.market_hash, g.betting_outcome_one, g.settled))
    items ≠ [] ∧
    (∀ t ∈ items, getStake t = Except.ok (getStakeQ t)) ∧
    g.num_trades = items.length ∧
    g.total_stake = (items.map getStakeQ).sum ∧
    (0 < g.total_stake →
      g.avg_odds = (items.map (fun t => getStakeQ t * tradeOdds t)).sum / g.total_stake) ∧
    (¬ 0 < g.total_stake → g.avg_odds = 0) ∧
    g.potential_win = g.total_stake * g.avg_odds ∧
    LatestSelection items (g.bet_time, g.outcome, g.settle_date) ∧
    g.result =
      (if g.outcome = some 0 then "VOID"
       else if (g.outcome = some 1 ∧ g.betting_outcome_one = true) ∨
               (g.outcome = some 2 ∧ g.betting_outcome_one = false) then "GANADA"
       else if g.settled = true then "PERDIDA" else "-"))

/-! ### Concrete sample inputs used by witnesses and counterexamples -/

/-- A fill whose `normalizedStake` is a non-numeric string. -/
def c3Fill : Trade where
  marketHash := "m1"
  bettingOutcomeOne := true
  settled := false
  outcome := none
  settleDate := none
  betTime := some 10
  odds := some (PyVal.num (5 * 10 ^ 19))
  normalizedStake := some (PyVal.str "abc")
  betTimeValue := none
  stake := none

/-- An unsettled group whose fills all contributed stake 0. -/
def c3Group : Group where
  stable_key := "m1__1"
  market_hash := "m1"
  betting_outcome_one := true
  settled := false
  outcome := none
  result := "-"
  settle_date := none
  bet_time := 0
  num_trades := 1
  total_stake := 0
  avg_odds := 0
  potential_win := 0

/-- A maker order on outcome one at implied probability 0.5: taker odds 2.0
for the opposite side. -/
def c3Order : Order where
  isMakerBettingOutcomeOne := true
  percentageOdds := some (PyVal.num (5 * 10 ^ 19))
  fillAmount := some (PyVal.num 0)

/-- Same shape as `c3Group`: zero total stake, unsettled. -/
def c2zGroup : Group where
  stable_key := "mz__1"
  market_hash := "mz"
  betting_outcome_one := true
  settled := false
  outcome := none
  result := "-"
  settle_date := none
  bet_time := 0
  num_trades := 1
  total_stake := 0
  avg_odds := 0
  potential_win := 0

/-- Maker order on outcome one at implied 0.5 for the `c2` counterexample. -/
def c2zOrder : Order where
  isMakerBettingOutcomeOne := true
  percentageOdds := some (PyVal.num (5 * 10 ^ 19))
  fillAmount := some (PyVal.num 0)

/-- A live unsettled position: stake 10 at average odds 2. -/
def c2Good : Group where
  stable_key := "mw__1"
  market_hash := "mw"
  betting_outcome_one := true
  settled := false
  outcome := none
  result := "-"
  settle_date := none
  bet_time := 0
  num_trades := 1
  total_stake := 10
  avg_odds := 2
  potential_win := 20

/-- Maker order on outcome one at implied 0.75: taker odds 4.0 opposite. -/
def c2wOrder : Order where
  isMakerBettingOutcomeOne := true
  percentageOdds := some (PyVal.num (75 * 10 ^ 18))
  fillAmount := some (PyVal.num 0)

def c2Groups : List Group := [c2Good]

def c2Markets : List (String × Market) := []

def c2Orders : List (String × List Order) := [("mw", [c2wOrder])]

/-- The list `find_surebets` returns on the `c2` sample input. -/
def c2List : List Surebet := (findSurebets c2Groups c2Markets c2Orders 0).toOption.getD []

/-- Unsettled leg on outcome one with a negative recorded stake. -/
def c4gA : Group where
  stable_key := "m4__1"
  market_hash := "m4"
  betting_outcome_one := true
  settled := false
  outcome := none
  result := "-"
  settle_date := none
  bet_time := 0
  num_trades := 1
  total_stake := -10
  avg_odds := 0
  potential_win := 0

/-- Unsettled leg on outcome two of the same market. -/
def c4gB : Group where
  stable_key := "m4__0"
  market_hash := "m4"
  betting_outcome_one := false
  settled := false
  outcome := none
  result := "-"
  settle_date := none
  bet_time := 0
  num_trades := 1
  total_stake := 4
  avg_odds := 0
  potential_win := 0

/-- The entry `detect_closed_surebets` builds for `[c4gA, c4gB]`. -/
def c4Entry : ClosedSurebet where
  market_hash := "m4"
  leg1 := c4gA
  leg2 := c4gB
  total_stake := -6
  profit1 := 6
  profit2 := 6
  guaranteed := 6
  roi := 0

/-- A fill whose `normalizedStake` is the negative number -5, at decimal
odds 2. -/
def c5NegTrade : Trade where
  marketHash := "m5"
  bettingOutcomeOne := true
  settled := false
  outcome := none
  settleDate := none
  betTime := some 10
  odds := some (PyVal.num (5 * 10 ^ 19))
  normalizedStake := some (PyVal.num (-5))
  betTimeValue := none
  stake := none

/-- The group `group_trades` builds for `[c5NegTrade]`. -/
def c5NegGroup : Group where
  stable_key := "m5__1"
  market_hash := "m5"
  betting_outcome_one := true
  settled := false
  outcome := none
  result := "-"
  settle_date := none
  bet_time := 10
  num_trades := 1
  total_stake := -5
  avg_odds := 0
  potential_win := 0

/-- Two fills of the same unsettled position: 7.5 at decimal odds 2, then
10 at decimal odds 4. -/
def c5TradeA : Trade where
  marketHash := "m6"
  bettingOutcomeOne := true
  settled := false
  outcome := none
  settleDate := none
  betTime := some 10
  odds := some (PyVal.num (5 * 10 ^ 19))
  normalizedStake := some (PyVal.num (15 / 2))
  betTimeValue := none
  stake := none

def c5TradeB : Trade := { c5TradeA with
  betTime := some 20
  odds := some (PyVal.num (25 * 10 ^ 18))
  normalizedStake := some (PyVal.num 10) }

def c5Trades : List Trade := [c5TradeA, c5TradeB]

/-- The groups `group_trades` returns on the `c5` sample input. -/
def c5Groups : List Group := (groupTrades c5Trades).toOption.getD []

/-- A Tennis market starting 7200 seconds after the sample clock 1000. -/
def c8Market : Market where
  teamOneName := some "A"
  teamTwoName := some "B"
  outcomeOneName := none
  outcomeTwoName := none
  sportLabel := some "Tennis"
  leagueLabel := some "L"
  type := some 52
  line := none
  gameTime := some 8200

/-- Maker at implied 0.75 with 600 USDC fillable (taker odds 4.0 for side
one, liquidity 600) and maker at implied 0.22 (taker odds 50/39 for side
two). -/
def c8Orders : List Order :=
  [{ isMakerBettingOutcomeOne := false
     percentageOdds := some (PyVal.num (75 * 10 ^ 18))
     fillAmount := some (PyVal.num (600 * 10 ^ 6)) },
   { isMakerBettingOutcomeOne := true
     percentageOdds := some (PyVal.num (22 * 10 ^ 18))
     fillAmount := some (PyVal.num 0) }]

/-- A settled VOID group used to witness the `get_stats` claim. -/
def c10VoidGroup : Group where
  stable_key := "ma__1"
  market_hash := "ma"
  betting_outcome_one := true
  settled := true
  outcome := some 0
  result := "VOID"
  settle_date := some 99
  bet_time := 5
  num_trades := 1
  total_stake := 8
  avg_odds := 2
  potential_win := 16

/-! ### Lemmas about the generic machinery -/

theorem insertDesc_perm (key : α → ℚ) (x : α) (l : List α) :
    List.Perm (insertDesc key x l) (x :: l) := by
  induction l with
  | nil => simp [insertDesc]
  | cons y ys ih =>
    by_cases h : key y < key x
    · simp [insertDesc, h]
    · simp only [insertDesc, if_neg h]
      exact (ih.cons y).trans (List.Perm.swap x y ys)

theorem insertDesc_pairwise (key : α → ℚ) (x : α) (l : List α)
    (h : l.Pairwise (fun a b => key b ≤ key a)) :
    (insertDesc key x l).Pairwise (fun a b => key b ≤ key a) := by
  induction l with
  | nil => simp [insertDesc]
  | cons y ys ih =>
    rcases List.pairwise_cons.mp h with ⟨hy, hys⟩
    by_cases hk : key y < key x
    · simp only [insertDesc, if_pos hk]
      refine List.pairwise_cons.mpr ⟨?_, h⟩
      intro z hz
      rcases List.mem_cons.mp hz with hz | hz
      · subst hz; exact le_of_lt hk
      · exact (hy z hz).trans (le_of_lt hk)
    · simp only [insertDesc, if_neg hk]
      refine List.pairwise_cons.mpr ⟨?_, ih hys⟩
      intro z hz
      have hz2 := (insertDesc_perm key x ys).mem_iff.mp hz
      rcases List.mem_cons.mp hz2 with hz3 | hz3
      · subst hz3; exact le_of_not_lt hk
      · exact hy z hz3

theorem sortDesc_perm (key : α → ℚ) (l : List α) : List.Perm (sortDesc key l) l := by
  suffices h : ∀ (l : List α) (acc : List α),
      List.Perm (l.foldl (fun acc x => insertDesc key x acc) acc) (acc ++ l) by
    simpa using h l []
  intro l
  induction l with
  | nil => intro acc; simp
  | cons x xs ih =>
    intro acc
    have h1 : (x :: xs).foldl (fun acc x => insertDesc key x acc) acc
        = xs.foldl (fun acc x => insertDesc key x acc) (insertDesc key x acc) := rfl
    rw [h1]
    refine (ih (insertDesc key x acc)).trans ?_
    refine (((insertDesc_perm key x acc).append_right xs).trans ?_)
    exact List.perm_middle.symm

theorem sortDesc_pairwise (key : α → ℚ) (l : List α) :
    (sortDesc key l).Pairwise (fun a b => key b ≤ key a) := by
  suffices h : ∀ (l : List α) (acc : List α),
      acc.Pairwise (fun a b => key b ≤ key a) →
      (l.foldl (fun acc x => insertDesc key x acc) acc).Pairwise
        (fun a b => key b ≤ key a) by
    exact h l [] (by simp)
  intro l
  induction l with
  | nil => intro acc hacc; simpa using hacc
  | cons x xs ih =>
    intro acc hacc
    exact ih _ (insertDesc_pairwise key x acc hacc)

theorem mem_sortDesc (key : α → ℚ) (l : List α) (a : α) :
    a ∈ sortDesc key l ↔ a ∈ l :=
  (sortDesc_perm key l).mem_iff

theorem mem_firstKeys [DecidableEq κ] (l : List κ) (k : κ) :
    k ∈ firstKeys l ↔ k ∈ l := by
  induction l with
  | nil => simp [firstKeys]
  | cons x xs ih =>
    by_cases hk : k = x
    · subst hk; simp [firstKeys]
    · simp [firstKeys, hk, List.mem_filter, ih]

theorem firstKeys_nodup [DecidableEq κ] (l : List κ) : (firstKeys l).Nodup := by
  induction l with
  | nil => simp [firstKeys]
  | cons x xs ih =>
    refine List.nodup_cons.mpr ⟨?_, List.Nodup.filter _ ih⟩
    intro hx
    have := (List.mem_filter.mp hx).2
    simp at this

theorem mem_groupByKey [DecidableEq κ] (key : α → κ) (l : List α)
    (k : κ) (gr : List α) :
    (k, gr) ∈ groupByKey key l ↔
      (∃ a ∈ l, key a = k) ∧ gr = l.filter (fun a => key a = k) := by
  unfold groupByKey
  rw [List.mem_map]
  constructor
  · rintro ⟨k', hk', heq⟩
    obtain ⟨h1, h2⟩ := Prod.mk.injEq .. ▸ heq
    subst h1
    refine ⟨?_, h2.symm⟩
    have := (mem_firstKeys _ _).mp hk'
    rcases List.mem_map.mp this with ⟨a, ha, hka⟩
    exact ⟨a, ha, hka⟩
  · rintro ⟨⟨a, ha, hka⟩, hgr⟩
    exact ⟨k, (mem_firstKeys _ _).mpr (List.mem_map.mpr ⟨a, ha, hka⟩),
      by rw [hgr]⟩

theorem groupByKey_keys_distinct [DecidableEq κ] (key : α → κ) (l : List α) :
    (groupByKey key l).Pairwise (fun p q => p.1 ≠ q.1) := by
  unfold groupByKey
  have hnd : (firstKeys (l.map key)).Pairwise (fun a b => a ≠ b) := firstKeys_nodup _
  exact hnd.map _ (fun a b h => h)

theorem exceptMap_ok (f : α → Except Unit β) (l : List α) (ys : List β)
    (h : exceptMap f l = Except.ok ys) :
    List.Forall₂ (fun x y => f x = Except.ok y) l ys := by
  induction l generalizing ys with
  | nil =>
    simp only [exceptMap, Except.ok.injEq] at h
    subst h; exact List.Forall₂.nil
  | cons x xs ih =>
    simp only [exceptMap] at h
    cases hx : f x with
    | error e => rw [hx] at h; exact absurd h (by simp)
    | ok y =>
      rw [hx] at h
      cases hxs : exceptMap f xs with
      | error e => rw [hxs] at h; exact absurd h (by simp)
      | ok ys' =>
        rw [hxs] at h
        simp only [Except.ok.injEq] at h
        subst h
        exact List.Forall₂.cons hx (ih ys' hxs)

theorem stakeWeightFold_ok (l : List Trade) (acc sw : ℚ × ℚ)
    (h : stakeWeightFold acc l = Except.ok sw) :
    (∀ t ∈ l, getStake t = Except.ok (getStakeQ t)) ∧
    sw.1 = acc.1 + (l.map getStakeQ).sum ∧
    sw.2 = acc.2 + (l.map (fun t => getStakeQ t * tradeOdds t)).sum := by
  induction l generalizing acc with
  | nil =>
    simp only [stakeWeightFold, Except.ok.injEq] at h
    subst h
    simp
  | cons t r ih =>
    simp only [stakeWeightFold] at h
    cases hs : getStake t with
    | error e => rw [hs] at h; exact absurd h (by simp)
    | ok s =>
      rw [hs] at h
      have hq : getStakeQ t = s := by simp [getStakeQ, hs]
      obtain ⟨h1, h2, h3⟩ := ih _ h
      refine ⟨?_, ?_, ?_⟩
      · intro u hu
        rcases List.mem_cons.mp hu with hu | hu
        · subst hu; rw [hs, hq]
        · exact h1 u hu
      · simp only [List.map_cons, List.sum_cons, h2, hq]; ring
      · simp only [List.map_cons, List.sum_cons, h3, hq]; ring

theorem latestFold_selection (t0 : Trade) (r : List Trade) :
    LatestSelection (t0 :: r) ((t0 :: r).foldl latestUpd (latestInit t0)) := by
  induction r using List.reverseRecOn with
  | nil =>
    refine ⟨[], t0, [], by simp, ?_, by simp, by simp⟩
    simp [latestUpd, latestInit]
  | append_singleton r t ih =>
    have hfold : (t0 :: (r ++ [t])).foldl latestUpd (latestInit t0)
        = latestUpd ((t0 :: r).foldl latestUpd (latestInit t0)) t := by
      have : t0 :: (r ++ [t]) = (t0 :: r) ++ [t] := by simp
      rw [this, List.foldl_append]
      rfl
    rw [hfold]
    obtain ⟨l1, tw, l2, hsplit, hst, h1, h2⟩ := ih
    rw [hst]
    by_cases hle : (latestInit tw).1 ≤ t.betTime.getD 0
    · rw [latestUpd, if_pos hle]
      refine ⟨t0 :: r, t, [], by simp, rfl, ?_, by simp⟩
      intro u hu
      have hbt : (latestInit tw).1 = tw.betTime.getD 0 := rfl
      rw [hbt] at hle
      have hmem : u ∈ l1 ++ tw :: l2 := by rw [← hsplit]; exact hu
      rcases List.mem_append.mp hmem with hm | hm
      · exact le_trans (h1 u hm) hle
      · rcases List.mem_cons.mp hm with hm | hm
        · subst hm; exact hle
        · exact le_trans (le_of_lt (h2 u hm)) hle
    · rw [latestUpd, if_neg hle]
      have hbt : (latestInit tw).1 = tw.betTime.getD 0 := rfl
      rw [hbt] at hle
      refine ⟨l1, tw, l2 ++ [t], ?_, rfl, h1, ?_⟩
      · have h3 : t0 :: (r ++ [t]) = (t0 :: r) ++ [t] := by simp
        rw [h3, hsplit]
        simp
      · intro u hu
        rcases List.mem_append.mp hu with hm | hm
        · exact h2 u hm
        · rcases List.mem_singleton.mp hm with rfl
          exact lt_of_not_le hle


/-! ### Claim theorems -/

/-- C1 (counterexample): at raw value `2 * 10^19` the implied probability is
`1/5`; `_get_odds_decimal` returns `1 / implied = 5`, not the claimed
`1 / (1 - implied) = 5/4`. -/
theorem c1_odds_decimal_cex :
    oddsDecimal (2 * 10 ^ 19) = 5 ∧
    1 / (1 - (2 * 10 ^ 19 : ℚ) / ODDS_SCALE) = 5 / 4 ∧
    (5 : ℚ) ≠ 5 / 4 := by
  refine ⟨?_, by norm_num [ODDS_SCALE], by norm_num⟩
  have h : ((2 * 10 ^ 19 : ℚ)) / ODDS_SCALE = 1 / 5 := by norm_num [ODDS_SCALE]
  simp only [oddsDecimal, h]
  norm_num

/-- C1 (amended): `_get_odds_decimal` divides the raw value by `10^20` and
returns 0 if the implied probability is not strictly between 0 and 1;
otherwise it returns `1 / implied`, i.e. the value whose product with the
implied probability is 1. -/
theorem c1_odds_decimal_amended (raw : ℚ) :
    (0 < raw / ODDS_SCALE → raw / ODDS_SCALE < 1 →
      oddsDecimal raw * (raw / ODDS_SCALE) = 1) ∧
    (¬(0 < raw / ODDS_SCALE ∧ raw / ODDS_SCALE < 1) → oddsDecimal raw = 0) := by
  constructor
  · intro h1 h2
    simp only [oddsDecimal, if_pos (And.intro h1 h2)]
    rw [one_div, inv_mul_cancel₀ (ne_of_gt h1)]
  · intro h
    simp only [oddsDecimal, if_neg h]

/-- C1 (witness): at raw value `5 * 10^19` (implied probability one half) the
returned decimal odds times the implied probability is 1. -/
theorem c1_odds_decimal_witness :
    oddsDecimal (5 * 10 ^ 19) * ((5 * 10 ^ 19 : ℚ) / ODDS_SCALE) = 1 :=
  (c1_odds_decimal_amended (5 * 10 ^ 19)).1
    (by norm_num [ODDS_SCALE]) (by norm_num [ODDS_SCALE])

/-- C7 (counterexample): at `odds_a = 1.005`, `min_roi = 0` the denominator
`odds_a - 1 - r = 0.005` is positive, yet the function returns the sentinel
999 (because of its `odds_a <= 1.01` guard), not the formula value 201. -/
theorem c7_required_odds_cex :
    requiredOddsForRoi (201 / 200) 0 = 999 ∧
    (0 : ℚ) < 201 / 200 - 1 - 0 / 100 ∧
    (201 / 200 : ℚ) * (1 + 0 / 100) / (201 / 200 - 1 - 0 / 100) = 201 ∧
    (999 : ℚ) ≠ 201 := by
  refine ⟨?_, by norm_num, by norm_num, by norm_num⟩
  have h : (201 / 200 : ℚ) ≤ 1.01 := by norm_num
  simp only [requiredOddsForRoi, if_pos h]

/-- C7 (amended): the required-opposing-odds computation returns the sentinel
999 whenever `odds_a ≤ 1.01`; past that guard it returns
`odds_a * (1 + r) / (odds_a - 1 - r)` when the denominator is positive and
999 when it is non-positive, never raising.  In particular `odds_a = 1.4`,
`min_roi = 3` gives `721/185`, within `1/1000` of `3.897`, and
`odds_a = 1.02` gives 999. -/
theorem c7_required_odds_amended (odds_a min_roi : ℚ) :
    (odds_a ≤ 1.01 → requiredOddsForRoi odds_a min_roi = 999) ∧
    (1.01 < odds_a → odds_a - 1 - min_roi / 100 ≤ 0 →
      requiredOddsForRoi odds_a min_roi = 999) ∧
    (1.01 < odds_a → 0 < odds_a - 1 - min_roi / 100 →
      requiredOddsForRoi odds_a min_roi =
        odds_a * (1 + min_roi / 100) / (odds_a - 1 - min_roi / 100)) ∧
    requiredOddsForRoi (7 / 5) 3 = 721 / 185 ∧
    ((3897 : ℚ) / 1000 < 721 / 185 ∧ (721 : ℚ) / 185 - 3897 / 1000 < 1 / 1000) ∧
    requiredOddsForRoi 1.02 3 = 999 := by
  refine ⟨?_, ?_, ?_, ?_, ⟨by norm_num, by norm_num⟩, ?_⟩
  · intro h
    simp only [requiredOddsForRoi, if_pos h]
  · intro h1 h2
    simp only [requiredOddsForRoi, if_neg (not_le.mpr h1), if_pos h2]
  · intro h1 h2
    simp only [requiredOddsForRoi, if_neg (not_le.mpr h1), if_neg (not_le.mpr h2)]
  · have h1 : ¬((7 / 5 : ℚ) ≤ 1.01) := by norm_num
    have h2 : ¬((7 / 5 : ℚ) - 1 - 3 / 100 ≤ 0) := by norm_num
    simp only [requiredOddsForRoi, if_neg h1, if_neg h2]
    norm_num
  · have h1 : ¬((1.02 : ℚ) ≤ 1.01) := by norm_num
    have h2 : (1.02 : ℚ) - 1 - 3 / 100 ≤ 0 := by norm_num
    simp only [requiredOddsForRoi, if_neg h1, if_pos h2]

/-- C7 (witness): the formula branch applied at `odds_a = 1.4`,
`min_roi = 3`. -/
theorem c7_required_odds_witness :
    requiredOddsForRoi (7 / 5) 3 = (7 / 5 : ℚ) * (1 + 3 / 100) / (7 / 5 - 1 - 3 / 100) :=
  (c7_required_odds_amended (7 / 5) 3).2.2.1 (by norm_num) (by norm_num)

/-- C9 (counterexample): with a negative recorded potential payout the
guaranteed profit is strictly decreasing in the opposing odds: at payout
-10, stake 1 it is -6 at odds 2 but -17/2 at odds 4, so monotonicity fails
without a sign constraint on the payout. -/
theorem c9_guaranteed_monotone_cex :
    surebetGuaranteed (-10) 1 2 = -6 ∧
    surebetGuaranteed (-10) 1 4 = -17 / 2 ∧
    ¬ surebetGuaranteed (-10) 1 2 ≤ surebetGuaranteed (-10) 1 4 := by
  refine ⟨?_, ?_, ?_⟩ <;> norm_num [surebetGuaranteed, min_self]

/-- C9 (amended): the guaranteed profit computed by `find_surebets` (as a
function of potential payout, total stake and best opposing taker odds) is
monotonically non-decreasing in the opposing odds for fixed NON-NEGATIVE
potential payout and positive total stake, over the accepted range
`live_opp > 1.01`; the counterexample shows the sign constraint on the
payout is necessary. -/
theorem c9_guaranteed_monotone (potential total_stake live_opp live_opp' : ℚ)
    (hP : 0 ≤ potential) (hS : 0 < total_stake)
    (hL : 1.01 < live_opp) (hLL : live_opp ≤ live_opp') :
    surebetGuaranteed potential total_stake live_opp ≤
      surebetGuaranteed potential total_stake live_opp' := by
  have h0 : (0 : ℚ) < live_opp := lt_trans (by norm_num) hL
  have h0' : (0 : ℚ) < live_opp' := lt_of_lt_of_le h0 hLL
  have key : ∀ L : ℚ, 0 < L →
      surebetGuaranteed potential total_stake L =
        potential - total_stake - potential / L := by
    intro L hL0
    simp only [surebetGuaranteed]
    rw [div_mul_cancel₀ _ (ne_of_gt hL0), min_self]
  rw [key _ h0, key _ h0']
  have hdiv : potential / live_opp' ≤ potential / live_opp :=
    div_le_div_of_nonneg_left hP h0 hLL
  linarith

/-- C9 (witness): payout 100, stake 10, opposing odds 2 then 3. -/
theorem c9_guaranteed_monotone_witness :
    surebetGuaranteed 100 10 2 ≤ surebetGuaranteed 100 10 3 :=
  c9_guaranteed_monotone 100 10 2 3 (by norm_num) (by norm_num)
    (by norm_num) (by norm_num)

/-- C3: the core can raise, contradicting the spec's never-throw guarantee.
`_get_stake` raises `ValueError` on a fill whose `normalizedStake` is the
string "abc", and `find_surebets` raises `ZeroDivisionError` on an unsettled
group with zero total stake once opposing odds above 1.01 exist. -/
theorem c3_core_raises :
    getStake c3Fill = Except.error () ∧
    findSurebets [c3Group] [] [("m1", [c3Order])] 0 = Except.error () := by
  constructor
  · rfl
  · have hlive : liveOppOdds [("m1", [c3Order])] c3Group = 2 := by
      norm_num [liveOppOdds, ordersFor, bestTakerOdds, c3Order, c3Group,
        pyFloat, ODDS_SCALE]
    have h1 : c3Group.settled = false := rfl
    have h2 : c3Group.total_stake = 0 := rfl
    norm_num [findSurebets, collectSurebets, surebetOf, hlive, h1, h2]

/-- C6 (counterexample): at target ROI -100% the claimed hedge-stake
formula is non-positive (so the claim demands no recommendation), but the
code divides by `1 + r = 0` computing `stake_b` and raises
`ZeroDivisionError` for every held stake and odds. -/
theorem c6_hedge_recommendation_cex :
    hedgeRecommendation 100 2 (-100) = Except.error () ∧
    (100 * 2 - 100 * (1 + (-100 : ℚ) / 100)) / (1 + (-100 : ℚ) / 100) ≤ 0 ∧
    (Except.error () : Except Unit (Option HedgeRec)) ≠ Except.ok none := by
  refine ⟨?_, by norm_num, by simp⟩
  norm_num [hedgeRecommendation]

/-- C6 (amended): for a held stake `stake_a > 0` at odds `odds_a` and a
target ROI other than -100% (`1 + r ≠ 0`; at exactly -100% the code raises,
see the counterexample), `_hedge_recommendation` returns without raising:
`None` exactly when the hedge stake
`(potentialPayout - stake_a * (1 + r)) / (1 + r)` is non-positive; otherwise
it returns that stake, `minOddsB = potentialPayout / stakeB`,
`guaranteed = potentialPayout - stake_a - stakeB`, and its reported ROI both
satisfies `roi = guaranteed / (stake_a + stakeB) * 100` and equals the
requested `min_roi` exactly. -/
theorem c6_hedge_recommendation_spec (stake_a odds_a min_roi : ℚ)
    (hs : 0 < stake_a) (hr : 1 + min_roi / 100 ≠ 0) :
    ∃ ob, hedgeRecommendation stake_a odds_a min_roi = Except.ok ob ∧
      (ob = none ↔
        (stake_a * odds_a - stake_a * (1 + min_roi / 100)) / (1 + min_roi / 100) ≤ 0) ∧
      (∀ rec, ob = some rec →
        rec.stake_b =
          (stake_a * odds_a - stake_a * (1 + min_roi / 100)) / (1 + min_roi / 100) ∧
        0 < rec.stake_b ∧
        rec.odds_b_min = stake_a * odds_a / rec.stake_b ∧
        rec.guaranteed = stake_a * odds_a - stake_a - rec.stake_b ∧
        rec.roi = rec.guaranteed / (stake_a + rec.stake_b) * 100 ∧
        rec.roi = min_roi) := by
  set b := (stake_a * odds_a - stake_a * (1 + min_roi / 100)) / (1 + min_roi / 100)
    with hb
  by_cases hble : b ≤ 0
  · refine ⟨none, ?_, ?_, ?_⟩
    · simp only [hedgeRecommendation, ← hb, if_neg hr, if_pos hble]
    · exact iff_of_true rfl hble
    · intro rec hrec
      exact absurd hrec (by simp)
  · have hbpos : 0 < b := lt_of_not_le hble
    have htot : 0 < stake_a + b := by linarith
    refine ⟨some
      { stake_b := b
        odds_b_min := stake_a * odds_a / b
        total_stake := stake_a + b
        guaranteed := stake_a * odds_a - stake_a - b
        roi := (stake_a * odds_a - stake_a - b) / (stake_a + b) * 100 }, ?_, ?_, ?_⟩
    · simp only [hedgeRecommendation, ← hb, if_neg hr, if_neg hble,
        if_neg (ne_of_gt htot)]
    · constructor
      · intro hc; exact absurd hc (by simp)
      · intro hc; exact absurd hc hble
    · intro rec hrec
      rw [Option.some.injEq] at hrec
      subst hrec
      have hbmul : b * (1 + min_roi / 100) =
          stake_a * odds_a - stake_a * (1 + min_roi / 100) := by
        rw [hb, div_mul_cancel₀ _ hr]
      refine ⟨rfl, hbpos, rfl, rfl, rfl, ?_⟩
      show (stake_a * odds_a - stake_a - b) / (stake_a + b) * 100 = min_roi
      rw [div_mul_eq_mul_div, div_eq_iff (ne_of_gt htot)]
      linarith [hbmul]

/-- C6 (witness): stake 100 at odds 2, target ROI 5%: the recommendation
exists and reports ROI exactly 5. -/
theorem c6_hedge_recommendation_witness :
    ∃ rec, hedgeRecommendation 100 2 5 = Except.ok (some rec) ∧ rec.roi = 5 := by
  obtain ⟨ob, hob, hiff, hrec⟩ :=
    c6_hedge_recommendation_spec 100 2 5 (by norm_num) (by norm_num)
  cases ob with
  | none =>
    have hb := hiff.mp rfl
    norm_num at hb
  | some rec =>
    exact ⟨rec, hob, (hrec rec rfl).2.2.2.2.2⟩

theorem prematchSide_some_score (min_roi : ℚ) (mh : String) (mkt : Market)
    (mkt_orders : List Order) (hours_until game_time : ℚ) (side_one : Bool)
    (o : PreOpp)
    (h : prematchSide min_roi mh mkt mkt_orders hours_until game_time side_one = some o) :
    o.score = (scoreOdds o.odds * 0.35 + scoreLiquidity o.liquidity * 0.25 +
      scoreSpread o.odds o.opp_odds * 0.20 + scoreTiming o.hours_until * 0.15 +
      scoreSport o.sport * 0.05) * 100 := by
  simp only [prematchSide] at h
  by_cases h1 : bestTakerOdds mkt_orders side_one < 1.5
  · rw [if_pos h1] at h; exact absurd h (by simp)
  rw [if_neg h1] at h
  by_cases h2 : totalLiquidity mkt_orders side_one < MIN_LIQUIDITY
  · rw [if_pos h2] at h; exact absurd h (by simp)
  rw [if_neg h2] at h
  by_cases h3 : bestTakerOdds mkt_orders (!side_one) < 1.01
  · rw [if_pos h3] at h; exact absurd h (by simp)
  rw [if_neg h3] at h
  rw [Option.some.injEq] at h
  subst h
  rfl

/-- C10: in `get_stats`, a settled VOID group is excluded from the win-rate
denominator and contributes zero to P&L while its stake still counts in
`total_stake` (appending one changes neither `win_rate`, `pnl`, `won` nor
`lost`, adds its stake to `total_stake` and adds one to `void`); and with no
decided groups `win_rate` is 0, with zero settled stake `roi` is 0, rather
than a division error. -/
theorem c10_get_stats_spec :
    (∀ (groups : List Group) (g : Group), g.settled = true → g.result = "VOID" →
      (getStats (groups ++ [g])).win_rate = (getStats groups).win_rate ∧
      (getStats (groups ++ [g])).pnl = (getStats groups).pnl ∧
      (getStats (groups ++ [g])).total_stake =
        (getStats groups).total_stake + g.total_stake ∧
      (getStats (groups ++ [g])).won = (getStats groups).won ∧
      (getStats (groups ++ [g])).lost = (getStats groups).lost ∧
      (getStats (groups ++ [g])).void = (getStats groups).void + 1) ∧
    (∀ groups : List Group,
      (getStats groups).won + (getStats groups).lost = 0 →
      (getStats groups).win_rate = 0) ∧
    (∀ groups : List Group,
      (getStats groups).total_stake = 0 → (getStats groups).roi = 0) := by
  refine ⟨?_, ?_, ?_⟩
  · intro groups g hset hres
    refine ⟨?_, ?_, ?_, ?_, ?_, ?_⟩ <;>
      simp [getStats, List.filter_append, List.filter_singleton, hset, hres]
  · intro groups h
    have heq : (getStats groups).win_rate =
        if 0 < (getStats groups).won + (getStats groups).lost
        then ((getStats groups).won : ℚ) /
          (((getStats groups).won + (getStats groups).lost : ℕ) : ℚ) * 100
        else 0 := rfl
    rw [heq, if_neg]
    omega
  · intro groups h
    have heq : (getStats groups).roi =
        if 0 < (getStats groups).total_stake
        then (getStats groups).pnl / (getStats groups).total_stake * 100
        else 0 := rfl
    rw [heq, if_neg]
    rw [h]
    exact lt_irrefl 0

/-- C8: every market side `analyze_prematches` accepts is scored
`100 * (0.35*odds + 0.25*liquidity + 0.20*spread + 0.15*timing +
0.05*sport)` over the fixed breakpoint tables, the returned list is sorted
by total score descending, and the scenario odds 4.0 / liquidity 600 /
overround 0.03 / 2 hours to start / Tennis scores exactly 98. -/
theorem c8_prematch_score_spec :
    (∀ (now : ℚ) (markets : List (String × Market))
        (orders : List (String × List Order)) (min_roi : ℚ) (o : PreOpp),
      o ∈ analyzePrematches now markets orders min_roi →
      o.score = 100 * (0.35 * scoreOdds o.odds + 0.25 * scoreLiquidity o.liquidity +
        0.20 * scoreSpread o.odds o.opp_odds + 0.15 * scoreTiming o.hours_until +
        0.05 * scoreSport o.sport)) ∧
    (∀ (now : ℚ) (markets : List (String × Market))
        (orders : List (String × List Order)) (min_roi : ℚ),
      (analyzePrematches now markets orders min_roi).Pairwise
        (fun a b => b.score ≤ a.score)) ∧
    (analyzePrematches 1000 [("ms", c8Market)] [("ms", c8Orders)] 3).map
      (fun o => o.score) = [98] := by
  refine ⟨?_, ?_, ?_⟩
  · intro now markets orders min_roi o ho
    rw [analyzePrematches, mem_sortDesc, List.mem_flatMap] at ho
    obtain ⟨p, _, hp⟩ := ho
    simp only [prematchMarket] at hp
    split_ifs at hp
    · exact absurd hp (List.not_mem_nil o)
    · exact absurd hp (List.not_mem_nil o)
    · rw [List.mem_filterMap] at hp
      obtain ⟨side, _, hside⟩ := hp
      rw [prematchSide_some_score _ _ _ _ _ _ _ _ hside]
      ring
  · intro now markets orders min_roi
    exact sortDesc_pairwise _ _
  · have hbest1 : bestTakerOdds c8Orders true = 4 := by
      norm_num [bestTakerOdds, c8Orders, pyFloat, ODDS_SCALE]
    have hbest2 : bestTakerOdds c8Orders false = 50 / 39 := by
      norm_num [bestTakerOdds, c8Orders, pyFloat, ODDS_SCALE]
    have hliq : totalLiquidity c8Orders true = 600 := by
      norm_num [totalLiquidity, c8Orders, pyFloat]
    have hgt : c8Market.gameTime = some 8200 := rfl
    have hsp : c8Market.sportLabel = some "Tennis" := rfl
    norm_num [analyzePrematches, prematchMarket, prematchSide, ordersFor,
      List.filterMap_cons, List.filterMap_nil,
      hgt, hsp, hbest1, hbest2, hliq, scoreOdds, scoreLiquidity, scoreSpread,
      scoreTiming, scoreSport, MIN_LIQUIDITY, sortDesc, insertDesc]

theorem closedEntry_some (p : String × List Group) (x : String × ClosedSurebet)
    (h : closedEntry p = some x) :
    x.1 = p.1 ∧
    p.2.find? (fun l => l.betting_outcome_one) = some x.2.leg1 ∧
    p.2.find? (fun l => !l.betting_outcome_one) = some x.2.leg2 ∧
    x.2.total_stake = x.2.leg1.total_stake + x.2.leg2.total_stake ∧
    x.2.guaranteed = min (x.2.leg1.potential_win - x.2.total_stake)
      (x.2.leg2.potential_win - x.2.total_stake) ∧
    x.2.roi =
      (if 0 < x.2.total_stake then x.2.guaranteed / x.2.total_stake * 100 else 0) := by
  simp only [closedEntry] at h
  cases h1 : List.find? (fun l => l.betting_outcome_one) p.2 with
  | none =>
    simp only [h1] at h
    exact Option.noConfusion h
  | some s1 =>
    cases h2 : List.find? (fun l => !l.betting_outcome_one) p.2 with
    | none =>
      simp only [h1, h2] at h
      exact Option.noConfusion h
    | some s2 =>
      simp only [h1, h2, Option.some.injEq] at h
      subst h
      exact ⟨rfl, rfl, rfl, rfl, rfl, rfl⟩

theorem closedEntry_isSome (p : String × List Group) (s1 s2 : Group)
    (h1 : p.2.find? (fun l => l.betting_outcome_one) = some s1)
    (h2 : p.2.find? (fun l => !l.betting_outcome_one) = some s2) :
    ∃ e, closedEntry p = some (p.1, e) := by
  simp only [closedEntry, h1, h2]
  exact ⟨_, rfl⟩

/-- C4: `detect_closed_surebets` returns at most one entry per market; a
market has an entry exactly when it has at least one unsettled group on each
side; and each entry satisfies
`guaranteed = min(leg1.potentialPayout, leg2.potentialPayout) - combinedStake`
and `roi = guaranteed / combinedStake * 100` when the combined stake is
positive (with `roi = 0` when it is not, the behaviour the counterexample
forces the claim to add). -/
theorem c4_detect_closed_spec (groups : List Group) :
    ((detectClosedSurebets groups).Pairwise (fun p q => p.1 ≠ q.1)) ∧
    (∀ mh : String,
      (∃ e, (mh, e) ∈ detectClosedSurebets groups) ↔
        ((∃ g ∈ groups, g.settled = false ∧ g.market_hash = mh ∧
            g.betting_outcome_one = true) ∧
         (∃ g ∈ groups, g.settled = false ∧ g.market_hash = mh ∧
            g.betting_outcome_one = false))) ∧
    (∀ mh e, (mh, e) ∈ detectClosedSurebets groups →
      e.guaranteed = min e.leg1.potential_win e.leg2.potential_win -
        (e.leg1.total_stake + e.leg2.total_stake) ∧
      (0 < e.leg1.total_stake + e.leg2.total_stake →
        e.roi = e.guaranteed / (e.leg1.total_stake + e.leg2.total_stake) * 100) ∧
      (¬ 0 < e.leg1.total_stake + e.leg2.total_stake → e.roi = 0)) := by
  refine ⟨?_, ?_, ?_⟩
  · apply List.pairwise_filterMap.mpr
    apply (groupByKey_keys_distinct _ _).imp
    intro p q hpq x hx y hy
    rw [Option.mem_def] at hx hy
    rw [(closedEntry_some p x hx).1, (closedEntry_some q y hy).1]
    exact hpq
  · intro mh
    constructor
    · rintro ⟨e, he⟩
      rw [detectClosedSurebets, List.mem_filterMap] at he
      obtain ⟨p, hp, hpe⟩ := he
      obtain ⟨hkey, hf1, hf2, -, -, -⟩ := closedEntry_some p (mh, e) hpe
      dsimp only at hkey hf1 hf2
      obtain ⟨hex, hfil⟩ := (mem_groupByKey _ _ _ _).mp hp
      have hl1mem := List.mem_of_find?_eq_some hf1
      have hl1p := List.find?_some hf1
      have hl2mem := List.mem_of_find?_eq_some hf2
      have hl2p := List.find?_some hf2
      rw [hfil] at hl1mem hl2mem
      rw [List.mem_filter] at hl1mem hl2mem
      obtain ⟨ha1, hm1⟩ := hl1mem
      obtain ⟨ha2, hm2⟩ := hl2mem
      rw [List.mem_filter] at ha1 ha2
      simp only [Bool.not_eq_eq_eq_not, Bool.not_true, decide_eq_true_eq] at ha1 ha2 hm1 hm2 hl1p hl2p
      refine ⟨⟨e.leg1, ha1.1, ?_, ?_, hl1p⟩, ⟨e.leg2, ha2.1, ?_, ?_, ?_⟩⟩
      · revert ha1; simp
      · rw [hm1, hkey]
      · revert ha2; simp
      · rw [hm2, hkey]
      · revert hl2p; simp
    · rintro ⟨⟨g1, hg1, hs1, hm1, ho1⟩, ⟨g2, hg2, hs2, hm2, ho2⟩⟩
      have hg1a : g1 ∈ groups.filter (fun g => !g.settled) := by
        rw [List.mem_filter]; exact ⟨hg1, by simp [hs1]⟩
      have hg2a : g2 ∈ groups.filter (fun g => !g.settled) := by
        rw [List.mem_filter]; exact ⟨hg2, by simp [hs2]⟩
      set active := groups.filter (fun g => !g.settled) with hact
      set legs := active.filter (fun g => g.market_hash = mh) with hlegs
      have hp : (mh, legs) ∈ groupByKey (fun g => g.market_hash) active :=
        (mem_groupByKey _ _ _ _).mpr ⟨⟨g1, hg1a, hm1⟩, rfl⟩
      have hg1l : g1 ∈ legs := by
        rw [hlegs, List.mem_filter]; exact ⟨hg1a, by simp [hm1]⟩
      have hg2l : g2 ∈ legs := by
        rw [hlegs, List.mem_filter]; exact ⟨hg2a, by simp [hm2]⟩
      have hf1 : ∃ s1, legs.find? (fun l => l.betting_outcome_one) = some s1 := by
        rw [← Option.isSome_iff_exists]
        rw [List.find?_isSome]
        exact ⟨g1, hg1l, ho1⟩
      have hf2 : ∃ s2, legs.find? (fun l => !l.betting_outcome_one) = some s2 := by
        rw [← Option.isSome_iff_exists]
        rw [List.find?_isSome]
        exact ⟨g2, hg2l, by simp [ho2]⟩
      obtain ⟨s1, hf1⟩ := hf1
      obtain ⟨s2, hf2⟩ := hf2
      obtain ⟨e, he⟩ := closedEntry_isSome (mh, legs) s1 s2 hf1 hf2
      refine ⟨e, ?_⟩
      rw [detectClosedSurebets, List.mem_filterMap]
      exact ⟨(mh, legs), hp, he⟩
  · intro mh e he
    rw [detectClosedSurebets, List.mem_filterMap] at he
    obtain ⟨p, -, hpe⟩ := he
    obtain ⟨-, -, -, htot, hguar, hroi⟩ := closedEntry_some p (mh, e) hpe
    dsimp only at htot hguar hroi
    refine ⟨?_, ?_, ?_⟩
    · rw [hguar, htot, min_sub_sub_right]
    · intro hpos
      rw [hroi, htot, if_pos hpos]
    · intro hneg
      rw [hroi, htot, if_neg hneg]

/-- C4 (counterexample): with unsettled legs of stakes -10 and 4 on the two
sides of one market, the entry's reported `roi` is 0 while the claimed
formula `guaranteed / combinedStake * 100` evaluates to -100. -/
theorem c4_closed_roi_cex :
    detectClosedSurebets [c4gA, c4gB] = [("m4", c4Entry)] ∧
    c4Entry.roi = 0 ∧
    c4Entry.guaranteed /
      (c4Entry.leg1.total_stake + c4Entry.leg2.total_stake) * 100 = -100 ∧
    (0 : ℚ) ≠ -100 := by
  refine ⟨?_, rfl, ?_, by norm_num⟩
  · norm_num [detectClosedSurebets, groupByKey, firstKeys, closedEntry,
      List.filterMap_cons, List.filterMap_nil, List.find?,
      c4gA, c4gB, c4Entry]
  · norm_num [c4Entry, c4gA, c4gB]

/-- C4 (witness): the two-sided membership test applied to the concrete
two-leg market of the counterexample input. -/
theorem c4_detect_closed_witness :
    ∃ e, ("m4", e) ∈ detectClosedSurebets [c4gA, c4gB] := by
  apply ((c4_detect_closed_spec [c4gA, c4gB]).2.1 "m4").mpr
  constructor
  · exact ⟨c4gA, by simp, rfl, rfl, rfl⟩
  · exact ⟨c4gB, by simp, rfl, rfl, rfl⟩

theorem surebetOf_eq_some (markets : List (String × Market))
    (orders : List (String × List Order)) (min_roi : ℚ) (g : Group) (sb : Surebet) :
    surebetOf markets orders min_roi g = Except.ok (some sb) ↔
      (g.settled = false ∧ 1.01 < liveOppOdds orders g ∧ g.total_stake ≠ 0 ∧
       0 < guaranteedOf orders g ∧ min_roi ≤ roiOf orders g ∧
       sb = mkSurebet markets orders g) := by
  unfold surebetOf
  split_ifs with h1 h2 h3 h4 h5
  · simp [h1]
  · constructor
    · intro hc; exact absurd hc (by simp)
    · rintro ⟨-, hlt, -⟩; exact absurd hlt (not_lt.mpr h2)
  · constructor
    · intro hc; exact absurd hc (by simp)
    · rintro ⟨-, -, hne, -⟩; exact absurd h3 hne
  · constructor
    · intro hc; exact absurd hc (by simp)
    · rintro ⟨-, -, -, hpos, -⟩; exact absurd hpos (not_lt.mpr h4)
  · constructor
    · intro hc; exact absurd hc (by simp)
    · rintro ⟨-, -, -, -, hle, -⟩; exact absurd hle (not_le.mpr h5)
  · constructor
    · intro hc
      rw [Except.ok.injEq, Option.some.injEq] at hc
      exact ⟨by simpa using h1, not_le.mp h2, h3, not_le.mp h4, not_lt.mp h5, hc.symm⟩
    · rintro ⟨-, -, -, -, -, rfl⟩; rfl

theorem collectSurebets_ok (markets : List (String × Market))
    (orders : List (String × List Order)) (min_roi : ℚ) (groups : List Group)
    (h : ∀ g ∈ groups, g.settled = false → g.total_stake ≠ 0) :
    ∃ l, collectSurebets markets orders min_roi groups = Except.ok l ∧
      ∀ sb, sb ∈ l ↔
        ∃ g ∈ groups, surebetOf markets orders min_roi g = Except.ok (some sb) := by
  induction groups with
  | nil => exact ⟨[], rfl, by simp⟩
  | cons g rest ih =>
    obtain ⟨l, hl, hmem⟩ := ih (fun g' hg' => h g' (List.mem_cons_of_mem _ hg'))
    have hg := h g (List.mem_cons_self _ _)
    have hok : ∃ ob, surebetOf markets orders min_roi g = Except.ok ob := by
      unfold surebetOf
      split_ifs with h1 h2 h3 h4 h5
      · exact ⟨none, rfl⟩
      · exact ⟨none, rfl⟩
      · exact absurd h3 (hg (by simpa using h1))
      · exact ⟨none, rfl⟩
      · exact ⟨none, rfl⟩
      · exact ⟨some (mkSurebet markets orders g), rfl⟩
    obtain ⟨ob, hob⟩ := hok
    cases ob with
    | none =>
      refine ⟨l, ?_, ?_⟩
      · simp only [collectSurebets, hob]
        exact hl
      · intro sb
        rw [hmem sb]
        constructor
        · rintro ⟨g', hg', hsb⟩; exact ⟨g', List.mem_cons_of_mem _ hg', hsb⟩
        · rintro ⟨g', hg', hsb⟩
          rcases List.mem_cons.mp hg' with rfl | hfin
          · rw [hob] at hsb; exact absurd hsb (by simp)
          · exact ⟨g', hfin, hsb⟩
    | some sb0 =>
      refine ⟨sb0 :: l, ?_, ?_⟩
      · simp only [collectSurebets, hob, hl]
      · intro sb
        rw [List.mem_cons, hmem sb]
        constructor
        · rintro (rfl | ⟨g', hg', hsb⟩)
          · exact ⟨g, List.mem_cons_self _ _, hob⟩
          · exact ⟨g', List.mem_cons_of_mem _ hg', hsb⟩
        · rintro ⟨g', hg', hsb⟩
          rcases List.mem_cons.mp hg' with rfl | hfin
          · left
            rw [hob] at hsb
            rw [Except.ok.injEq, Option.some.injEq] at hsb
            exact hsb.symm
          · right; exact ⟨g', hfin, hsb⟩

/-- C2 (amended): `find_surebets` considers every unsettled group (with no
positive-stake filter; an unsettled zero-stake group with opposing odds
above 1.01 makes it raise, see the counterexample).  When every unsettled
group has non-zero total stake it completes, a group contributes an
opportunity exactly when `liveOppOdds > 1.01`, `guaranteedProfit > 0` and
`roi ≥ min_roi` under the stated formulas, every returned opportunity's two
profit paths are each at least its `guaranteed_profit` with the smaller
equal to it exactly, and the list is sorted by ROI descending. -/
theorem c2_find_surebets_spec (groups : List Group)
    (markets : List (String × Market)) (orders : List (String × List Order))
    (min_roi : ℚ)
    (h : ∀ g ∈ groups, g.settled = false → g.total_stake ≠ 0) :
    ∃ l, findSurebets groups markets orders min_roi = Except.ok l ∧
      SurebetsSpec markets orders min_roi groups l := by
  obtain ⟨l0, hl0, hmem⟩ := collectSurebets_ok markets orders min_roi groups h
  refine ⟨sortDesc (fun sb => sb.roi) l0, ?_, ?_, ?_, ?_, ?_⟩
  · simp only [findSurebets, hl0]
  · exact sortDesc_pairwise _ _
  · intro sb hsb
    rw [mem_sortDesc] at hsb
    obtain ⟨g, hg, hof⟩ := (hmem sb).mp hsb
    obtain ⟨hset, hlive, hne, hguar, hroi, rfl⟩ := (surebetOf_eq_some _ _ _ _ _).mp hof
    exact ⟨rfl, min_le_left _ _, min_le_right _ _, rfl, rfl, hlive, hguar, hroi⟩
  · intro g hg hset hlive hguar hroi
    rw [mem_sortDesc]
    exact (hmem _).mpr
      ⟨g, hg, (surebetOf_eq_some _ _ _ _ _).mpr
        ⟨hset, hlive, h g hg hset, hguar, hroi, rfl⟩⟩
  · intro sb hsb
    rw [mem_sortDesc] at hsb
    obtain ⟨g, hg, hof⟩ := (hmem sb).mp hsb
    obtain ⟨hset, hlive, -, hguar, hroi, rfl⟩ := (surebetOf_eq_some _ _ _ _ _).mp hof
    exact ⟨g, hg, hset, hlive, hguar, hroi, rfl⟩

/-- C2 (counterexample): an unsettled group with zero total stake and
opposing taker odds 2.0 available makes `find_surebets` raise
`ZeroDivisionError` at the `roi` division, instead of being skipped by the
positive-total-stake filter the claim asserts. -/
theorem c2_zero_stake_cex :
    findSurebets [c2zGroup] [] [("mz", [c2zOrder])] 0 = Except.error () ∧
    (Except.error () : Except Unit (List Surebet)) ≠ Except.ok [] := by
  constructor
  · have hlive : liveOppOdds [("mz", [c2zOrder])] c2zGroup = 2 := by
      norm_num [liveOppOdds, ordersFor, bestTakerOdds, c2zOrder, c2zGroup,
        pyFloat, ODDS_SCALE]
    have h1 : c2zGroup.settled = false := rfl
    have h2 : c2zGroup.total_stake = 0 := rfl
    norm_num [findSurebets, collectSurebets, surebetOf, hlive, h1, h2]
  · simp

/-- C2 (witness): the amended contract holds on a concrete stake-10 position
with opposing taker odds 4.0 available. -/
theorem c2_find_surebets_witness :
    SurebetsSpec c2Markets c2Orders 0 c2Groups c2List := by
  have hyp : ∀ g ∈ c2Groups, g.settled = false → g.total_stake ≠ 0 := by
    intro g hg _
    have hgg : g = c2Good := by simpa [c2Groups] using hg
    rw [hgg]
    norm_num [c2Good]
  obtain ⟨l, hl, hs⟩ := c2_find_surebets_spec c2Groups c2Markets c2Orders 0 hyp
  have heq : c2List = l := by
    unfold c2List
    rw [hl]
    rfl
  rw [heq]
  exact hs

theorem forall₂_mem_left {R : α → β → Prop} {l1 : List α} {l2 : List β}
    (hf : List.Forall₂ R l1 l2) {a : α} (ha : a ∈ l1) : ∃ b ∈ l2, R a b := by
  induction hf with
  | nil => exact absurd ha (List.not_mem_nil a)
  | cons hab hrest ih =>
    rcases List.mem_cons.mp ha with rfl | ha'
    · exact ⟨_, List.mem_cons_self _ _, hab⟩
    · obtain ⟨b, hb, hr⟩ := ih ha'
      exact ⟨b, List.mem_cons_of_mem _ hb, hr⟩

theorem forall₂_mem_right {R : α → β → Prop} {l1 : List α} {l2 : List β}
    (hf : List.Forall₂ R l1 l2) {b : β} (hb : b ∈ l2) : ∃ a ∈ l1, R a b := by
  induction hf with
  | nil => exact absurd hb (List.not_mem_nil b)
  | cons hab hrest ih =>
    rcases List.mem_cons.mp hb with rfl | hb'
    · exact ⟨_, List.mem_cons_self _ _, hab⟩
    · obtain ⟨a, ha, hr⟩ := ih hb'
      exact ⟨a, List.mem_cons_of_mem _ ha, hr⟩

theorem forall₂_pairwise {R : α → β → Prop} {S : α → α → Prop} {S' : β → β → Prop}
    {l1 : List α} {l2 : List β} (hf : List.Forall₂ R l1 l2) :
    l1.Pairwise S → (∀ a a' b b', R a b → R a' b' → S a a' → S' b b') →
    l2.Pairwise S' := by
  induction hf with
  | nil => intro _ _; exact List.Pairwise.nil
  | cons hab hrest ih =>
    intro hp hmono
    rcases List.pairwise_cons.mp hp with ⟨hhead, htail⟩
    refine List.pairwise_cons.mpr ⟨?_, ih htail hmono⟩
    intro b' hb'
    obtain ⟨a', ha', hra'⟩ := forall₂_mem_right hrest hb'
    exact hmono _ _ _ _ hab hra' (hhead a' ha')

theorem buildGroup_ok (k : String × Bool × Bool) (items : List Trade) (g : Group)
    (h : buildGroup k items = Except.ok g) :
    k = (g.market_hash, g.betting_outcome_one, g.settled) ∧
    items ≠ [] ∧
    (∀ t ∈ items, getStake t = Except.ok (getStakeQ t)) ∧
    g.num_trades = items.length ∧
    g.total_stake = (items.map getStakeQ).sum ∧
    (0 < g.total_stake →
      g.avg_odds = (items.map (fun t => getStakeQ t * tradeOdds t)).sum / g.total_stake) ∧
    (¬ 0 < g.total_stake → g.avg_odds = 0) ∧
    g.potential_win = g.total_stake * g.avg_odds ∧
    LatestSelection items (g.bet_time, g.outcome, g.settle_date) ∧
    g.result =
      (if g.outcome = some 0 then "VOID"
       else if (g.outcome = some 1 ∧ g.betting_outcome_one = true) ∨
               (g.outcome = some 2 ∧ g.betting_outcome_one = false) then "GANADA"
       else if g.settled = true then "PERDIDA" else "-") := by
  cases items with
  | nil => exact absurd h (by simp [buildGroup])
  | cons t0 rest =>
    simp only [buildGroup] at h
    cases hsw : stakeWeightFold (0, 0) (t0 :: rest) with
    | error e =>
      simp only [hsw] at h
      exact Except.noConfusion h
    | ok sw =>
      simp only [hsw, Except.ok.injEq] at h
      subst h
      obtain ⟨hall, hs1, hs2⟩ := stakeWeightFold_ok _ _ _ hsw
      rw [zero_add] at hs1 hs2
      refine ⟨rfl, by simp, hall, rfl, hs1, ?_, ?_, rfl, ?_, rfl⟩
      · intro hpos
        dsimp only at hpos ⊢
        rw [if_pos hpos, hs2]
      · intro hneg
        dsimp only at hneg ⊢
        rw [if_neg hneg]
      · exact latestFold_selection t0 rest

theorem c5_group_trades_spec (trades : List Trade) (gs : List Group)
    (h : groupTrades trades = Except.ok gs) : GroupTradesSpec trades gs := by
  rw [groupTrades] at h
  have hf := exceptMap_ok _ _ _ h
  refine ⟨?_, ?_, ?_⟩
  · have hkd := groupByKey_keys_distinct tradeKey trades
    refine forall₂_pairwise hf hkd ?_
    intro p q g1 g2 hp hq hne
    rw [← (buildGroup_ok _ _ _ hp).1, ← (buildGroup_ok _ _ _ hq).1]
    exact hne
  · intro t ht
    have hgr : (tradeKey t, trades.filter (fun a => tradeKey a = tradeKey t)) ∈
        groupByKey tradeKey trades :=
      (mem_groupByKey _ _ _ _).mpr ⟨⟨t, ht, rfl⟩, rfl⟩
    obtain ⟨g, hgmem, hbg⟩ := forall₂_mem_left hf hgr
    exact ⟨g, hgmem, (buildGroup_ok _ _ _ hbg).1⟩
  · intro g hg
    obtain ⟨p, hpmem, hbg⟩ := forall₂_mem_right hf hg
    rcases p with ⟨k, items⟩
    obtain ⟨hex, hfil⟩ := (mem_groupByKey _ _ _ _).mp hpmem
    obtain ⟨hkey, hne, hall, hnum, htot, havgp, havgn, hpw, hlatest, hres⟩ :=
      buildGroup_ok k items g hbg
    subst hkey
    rw [hfil] at hne hall hnum htot havgp hlatest
    exact ⟨hne, hall, hnum, htot, havgp, havgn, hpw, hlatest, hres⟩

theorem stakeWeightFold_isOk (l : List Trade)
    (h : ∀ t ∈ l, ∃ q, getStake t = Except.ok q) :
    ∀ acc, ∃ sw, stakeWeightFold acc l = Except.ok sw := by
  induction l with
  | nil => exact fun acc => ⟨acc, rfl⟩
  | cons t r ih =>
    intro acc
    obtain ⟨q, hq⟩ := h t (List.mem_cons_self _ _)
    obtain ⟨sw, hsw⟩ := ih (fun u hu => h u (List.mem_cons_of_mem _ hu))
      (acc.1 + q, acc.2 + q * tradeOdds t)
    exact ⟨sw, by simp only [stakeWeightFold, hq, hsw]⟩

theorem buildGroup_isOk (k : String × Bool × Bool) (items : List Trade)
    (hne : items ≠ []) (h : ∀ t ∈ items, ∃ q, getStake t = Except.ok q) :
    ∃ g, buildGroup k items = Except.ok g := by
  cases items with
  | nil => exact absurd rfl hne
  | cons t0 rest =>
    obtain ⟨sw, hsw⟩ := stakeWeightFold_isOk (t0 :: rest) h (0, 0)
    cases hbg : buildGroup k (t0 :: rest) with
    | error e =>
      exfalso
      simp only [buildGroup, hsw] at hbg
      exact Except.noConfusion hbg
    | ok g => exact ⟨g, rfl⟩

theorem exceptMap_isOk (f : α → Except Unit β) (l : List α)
    (h : ∀ x ∈ l, ∃ y, f x = Except.ok y) : ∃ ys, exceptMap f l = Except.ok ys := by
  induction l with
  | nil => exact ⟨[], rfl⟩
  | cons x xs ih =>
    obtain ⟨y, hy⟩ := h x (List.mem_cons_self _ _)
    obtain ⟨ys, hys⟩ := ih (fun u hu => h u (List.mem_cons_of_mem _ hu))
    exact ⟨y :: ys, by simp only [exceptMap, hy, hys]⟩

theorem groupTrades_isOk (trades : List Trade)
    (h : ∀ t ∈ trades, ∃ q, getStake t = Except.ok q) :
    ∃ gs, groupTrades trades = Except.ok gs := by
  rw [groupTrades]
  apply exceptMap_isOk
  intro p hp
  rcases p with ⟨k, items⟩
  obtain ⟨⟨a, ha, hak⟩, hfil⟩ := (mem_groupByKey _ _ _ _).mp hp
  have hamem : a ∈ items := by
    rw [hfil, List.mem_filter]
    exact ⟨ha, by simp [hak]⟩
  refine buildGroup_isOk k items (fun hcon => ?_) ?_
  · rw [hcon] at hamem
    exact List.not_mem_nil a hamem
  · intro t ht
    rw [hfil, List.mem_filter] at ht
    exact h t ht.1

/-- C5 (witness): the grouping contract on two same-key fills with stakes
7.5 at odds 2 and 10 at odds 4. -/
theorem c5_group_trades_witness : GroupTradesSpec c5Trades c5Groups := by
  have hstakes : ∀ t ∈ c5Trades, ∃ q, getStake t = Except.ok q := by
    intro t ht
    have := (by simpa [c5Trades] using ht : t = c5TradeA ∨ t = c5TradeB)
    rcases this with rfl | rfl
    · exact ⟨15 / 2, by norm_num [getStake, c5TradeA, truthy, pyFloat]⟩
    · exact ⟨10, by norm_num [getStake, c5TradeB, c5TradeA, truthy, pyFloat]⟩
  obtain ⟨gs, hgs⟩ := groupTrades_isOk c5Trades hstakes
  have heq : c5Groups = gs := by
    unfold c5Groups
    rw [hgs]
    rfl
  exact c5_group_trades_spec c5Trades c5Groups (heq ▸ hgs)

/-- C5 (counterexample): a single fill with normalized stake -5 at decimal
odds 2 yields a group with `total_stake = -5` and `avg_odds = 0`, while the
claimed stake-weighted mean of decimal odds is `(-5 * 2) / -5 = 2`. -/
theorem c5_avg_odds_cex :
    (∃ g, groupTrades [c5NegTrade] = Except.ok [g] ∧
      g.total_stake = -5 ∧ g.avg_odds = 0 ∧
      (getStakeQ c5NegTrade * tradeOdds c5NegTrade) / g.total_stake = 2) ∧
    (0 : ℚ) ≠ 2 := by
  refine ⟨?_, by norm_num⟩
  have hstake : getStake c5NegTrade = Except.ok (-5) := by
    norm_num [getStake, c5NegTrade, truthy, pyFloat]
  have hstakeQ : getStakeQ c5NegTrade = -5 := by
    rw [getStakeQ, hstake]
  have hodds : tradeOdds c5NegTrade = 2 := by
    norm_num [tradeOdds, c5NegTrade, getOddsDecimalVal, pyFloat, oddsDecimal,
      ODDS_SCALE]
  have hsw : stakeWeightFold (0, 0) [c5NegTrade] = Except.ok (-5, -10) := by
    simp only [stakeWeightFold, hstake, hodds]
    norm_num
  have hbg : ∃ g, buildGroup (tradeKey c5NegTrade) [c5NegTrade] = Except.ok g ∧
      g.total_stake = -5 ∧ g.avg_odds = 0 := by
    cases hb : buildGroup (tradeKey c5NegTrade) [c5NegTrade] with
    | error e =>
      exfalso
      simp only [buildGroup, hsw] at hb
      exact Except.noConfusion hb
    | ok g =>
      simp only [buildGroup, hsw, Except.ok.injEq] at hb
      refine ⟨g, rfl, ?_, ?_⟩
      · rw [← hb]
      · rw [← hb]
        norm_num
  obtain ⟨g, hg, htot, havg⟩ := hbg
  refine ⟨g, ?_, htot, havg, by rw [hstakeQ, hodds, htot]; norm_num⟩
  rw [groupTrades]
  have hgk : groupByKey tradeKey [c5NegTrade] =
      [(tradeKey c5NegTrade, [c5NegTrade])] := by
    simp [groupByKey, firstKeys]
  rw [hgk]
  simp only [exceptMap, hg]

end SxBet
